import Mathlib

/-!
Verification development for the video-content-agent pipeline.

The definitions below are shallow embeddings of the TypeScript sources:
strings are modelled as `List Char` (or `String`), fallible code returns
`Option`/`Except`, and the interactive/remote collaborators (language model
outputs, HTTP status responses, the human reviewer) are passed in as explicit
inputs.  Machine details that no statement here depends on (UTF-16 lone
surrogates in JSON string escapes, duplicate object keys collapsing, IEEE-754
number decoding) are kept symbolic: a JSON number is represented by its lexeme
and an object by its member list in parse order.
-/

namespace VideoContentAgent

/-! ## JSON values and a model of JSON.parse -/

/-- JSON values as produced by a strict parse.  Numbers keep their lexeme. -/
inductive Json where
  | null : Json
  | bool (b : Bool) : Json
  | num (lexeme : List Char) : Json
  | str (s : String) : Json
  | arr (elems : List Json) : Json
  | obj (members : List (String × Json)) : Json

/-- JSON insignificant whitespace (space, tab, line feed, carriage return). -/
def isJsonWs (c : Char) : Bool :=
  c = ' ' || c = '\t' || c = '\n' || c = '\r'

/-- Skip JSON whitespace. -/
def skipWs (s : List Char) : List Char :=
  s.dropWhile isJsonWs

/-- Value of a hexadecimal digit, if any. -/
def hexVal (c : Char) : Option Nat :=
  if '0' ≤ c ∧ c ≤ '9' then some (c.toNat - 48)
  else if 'a' ≤ c ∧ c ≤ 'f' then some (c.toNat - 87)
  else if 'A' ≤ c ∧ c ≤ 'F' then some (c.toNat - 55)
  else none

/-- Decode a simple JSON string escape character. -/
def escChar (c : Char) : Option Char :=
  if c = '"' then some '"'
  else if c = '\\' then some '\\'
  else if c = '/' then some '/'
  else if c = 'b' then some (Char.ofNat 8)
  else if c = 'f' then some (Char.ofNat 12)
  else if c = 'n' then some '\n'
  else if c = 'r' then some '\r'
  else if c = 't' then some '\t'
  else none

/-- Body of a JSON string after the opening quote: returns the decoded
characters and the remaining input after the closing quote.  (Lone UTF-16
surrogates from a \u escape are approximated by the null character, the
only spot where this model of JSON.parse is coarser than JS strings.) -/
def parseStringBody : List Char → Option (List Char × List Char)
  | [] => none
  | '"' :: rest => some ([], rest)
  | '\\' :: 'u' :: a :: b :: c :: d :: rest =>
    match hexVal a, hexVal b, hexVal c, hexVal d with
    | some va, some vb, some vc, some vd =>
      (parseStringBody rest).map (fun p =>
        (Char.ofNat (va * 4096 + vb * 256 + vc * 16 + vd) :: p.1, p.2))
    | _, _, _, _ => none
  | '\\' :: e :: rest =>
    match escChar e with
    | some c => (parseStringBody rest).map (fun p => (c :: p.1, p.2))
    | none => none
  | c :: rest =>
    if c.toNat < 32 then none
    else (parseStringBody rest).map (fun p => (c :: p.1, p.2))

/-- Exponent tail of a JSON number, after the letter e/E. -/
def parseExpTail (lexeme : List Char) (e : Char) (r : List Char) :
    Option (List Char × List Char) :=
  let signAndRest : List Char × List Char :=
    match r with
    | '+' :: t => (['+'], t)
    | '-' :: t => (['-'], t)
    | _ => ([], r)
  let ds := signAndRest.2.takeWhile Char.isDigit
  if ds.isEmpty then none
  else some (lexeme ++ e :: signAndRest.1 ++ ds, signAndRest.2.dropWhile Char.isDigit)

/-- Optional fraction and exponent parts of a JSON number. -/
def parseFracExp (lexeme : List Char) (s : List Char) :
    Option (List Char × List Char) :=
  let afterFrac : Option (List Char × List Char) :=
    match s with
    | '.' :: r =>
      let ds := r.takeWhile Char.isDigit
      if ds.isEmpty then none
      else some (lexeme ++ '.' :: ds, r.dropWhile Char.isDigit)
    | _ => some (lexeme, s)
  match afterFrac with
  | none => none
  | some (lex2, s2) =>
    match s2 with
    | 'e' :: r => parseExpTail lex2 'e' r
    | 'E' :: r => parseExpTail lex2 'E' r
    | _ => some (lex2, s2)

/-- A JSON number token: optional minus, integer part with no leading zero,
optional fraction, optional exponent.  Returns the lexeme and the rest. -/
def parseNumberLex (s : List Char) : Option (List Char × List Char) :=
  let signAndRest : List Char × List Char :=
    match s with
    | '-' :: r => (['-'], r)
    | _ => ([], s)
  match signAndRest.2 with
  | [] => none
  | c :: r =>
    if c = '0' then parseFracExp (signAndRest.1 ++ ['0']) r
    else if c.isDigit then
      parseFracExp (signAndRest.1 ++ (c :: r).takeWhile Char.isDigit)
        ((c :: r).dropWhile Char.isDigit)
    else none

mutual

/-- Parse one JSON value (fuel-indexed to make recursion evidently total). -/
def parseValue : Nat → List Char → Option (Json × List Char)
  | 0, _ => none
  | fuel + 1, s =>
    match skipWs s with
    | '[' :: rest =>
      (match skipWs rest with
       | ']' :: rest2 => some (Json.arr [], rest2)
       | r => parseElems fuel [] r)
    | '{' :: rest =>
      (match skipWs rest with
       | '}' :: rest2 => some (Json.obj [], rest2)
       | r => parseMembers fuel [] r)
    | '"' :: rest =>
      (parseStringBody rest).map (fun p => (Json.str (String.mk p.1), p.2))
    | 'n' :: 'u' :: 'l' :: 'l' :: rest => some (Json.null, rest)
    | 't' :: 'r' :: 'u' :: 'e' :: rest => some (Json.bool true, rest)
    | 'f' :: 'a' :: 'l' :: 's' :: 'e' :: rest => some (Json.bool false, rest)
    | other => (parseNumberLex other).map (fun p => (Json.num p.1, p.2))

/-- Parse the elements of a non-empty JSON array, then the closing bracket. -/
def parseElems : Nat → List Json → List Char → Option (Json × List Char)
  | 0, _, _ => none
  | fuel + 1, acc, s =>
    match parseValue fuel s with
    | none => none
    | some (v, rest) =>
      match skipWs rest with
      | ',' :: rest2 => parseElems fuel (acc ++ [v]) rest2
      | ']' :: rest2 => some (Json.arr (acc ++ [v]), rest2)
      | _ => none

/-- Parse the members of a non-empty JSON object, then the closing brace. -/
def parseMembers : Nat → List (String × Json) → List Char → Option (Json × List Char)
  | 0, _, _ => none
  | fuel + 1, acc, s =>
    match skipWs s with
    | '"' :: rest =>
      (match parseStringBody rest with
       | none => none
       | some (k, rest2) =>
         match skipWs rest2 with
         | ':' :: rest3 =>
           (match parseValue fuel rest3 with
            | none => none
            | some (v, rest4) =>
              match skipWs rest4 with
              | ',' :: rest5 => parseMembers fuel (acc ++ [(String.mk k, v)]) rest5
              | '}' :: rest5 => some (Json.obj (acc ++ [(String.mk k, v)]), rest5)
              | _ => none)
         | _ => none)
    | _ => none

end

/-- Model of JSON.parse: parse one value, then require only whitespace after.
The fuel bound 2·length + 2 dominates the recursion depth. -/
def jsonParse (s : List Char) : Option Json :=
  match parseValue (2 * s.length + 2) s with
  | some (v, rest) => if (skipWs rest).isEmpty then some v else none
  | none => none

/-- Is this the JSON null value?  Accessing .length on a parsed null throws a
TypeError in JS; on every other parsed value the access is safe (possibly
undefined). -/
def Json.isNull : Json → Bool
  | Json.null => true
  | _ => false

/-! ## Research stage: the fallback extraction parser (src/agents/research.ts)

`runResearchStage` turns each model output into a collection: strip the
markdown fences, trim, strictly parse; on failure regex-match /\[.*\]/s over
the original output and retry; default to the empty array. -/

/-- The whitespace class of JavaScript (String.prototype.trim and regex \s):
ASCII whitespace, NBSP, the Unicode space separators, line/paragraph
separators and the BOM. -/
def jsWhitespaceB (c : Char) : Bool :=
  (9 ≤ c.toNat && c.toNat ≤ 13) || c.toNat = 32 || c.toNat = 160 ||
  c.toNat = 5760 || (8192 ≤ c.toNat && c.toNat ≤ 8202) ||
  c.toNat = 8232 || c.toNat = 8233 || c.toNat = 8239 || c.toNat = 8287 ||
  c.toNat = 12288 || c.toNat = 65279

/-- JavaScript String.prototype.trim over a character list. -/
def trimList (s : List Char) : List Char :=
  ((s.dropWhile jsWhitespaceB).reverse.dropWhile jsWhitespaceB).reverse

/-- The lexeme removed first by the fence-stripping regex. -/
def fenceJson : List Char := "```json".toList

/-- The shorter fence lexeme. -/
def fenceBare : List Char := "```".toList

/-- One left-to-right pass of String.replace(/```json|```/g, ""): at each
position remove "```json" if present (the alternation tries it first), else
"```" if present, else keep the character.  Fuel = input length. -/
def stripFencesAux : Nat → List Char → List Char
  | 0, s => s
  | n + 1, s =>
    match s with
    | [] => []
    | c :: cs =>
      if fenceJson.isPrefixOf (c :: cs) then stripFencesAux n (cs.drop 6)
      else if fenceBare.isPrefixOf (c :: cs) then stripFencesAux n (cs.drop 2)
      else c :: stripFencesAux n cs

/-- output.replace(/```json|```/g, ""). -/
def stripFences (s : List Char) : List Char :=
  stripFencesAux s.length s

/-- Not a left bracket. -/
def notLBrack (c : Char) : Bool := c ≠ '['

/-- Not a right bracket. -/
def notRBrack (c : Char) : Bool := c ≠ ']'

/-- The span matched by /\[.*\]/s on the output, if any.  The dot-all greedy
regex matches from the first left bracket to the last right bracket of the
whole string. -/
def bracketSpan (s : List Char) : Option (List Char) :=
  let fromFirst := s.dropWhile notLBrack
  let span := (fromFirst.reverse.dropWhile notRBrack).reverse
  if span.isEmpty then none else some span

/-- The video-reference extraction of runResearchStage applied to
ytResult.finalOutput: inside `if (ytResult.finalOutput)`, strictly parse the
fence-stripped trim; a parsed null throws inside the try when the success log
reads videos.length, landing in the catch like a parse failure; the catch
retries JSON.parse on the /\[.*\]/s match of the original output, whose inner
success log throws on null the same way; on any further failure the
collection stays empty. -/
def extractVideos (finalOutput : Option (List Char)) : Json :=
  match finalOutput with
  | none => Json.arr []
  | some out =>
    if out.isEmpty then Json.arr []
    else
      match jsonParse (trimList (stripFences out)) with
      | some v =>
        if v.isNull then
          match bracketSpan out with
          | some span =>
            (match jsonParse span with
             | some v2 => if v2.isNull then Json.arr [] else v2
             | none => Json.arr [])
          | none => Json.arr []
        else v
      | none =>
        match bracketSpan out with
        | some span =>
          (match jsonParse span with
           | some v2 => if v2.isNull then Json.arr [] else v2
           | none => Json.arr [])
        | none => Json.arr []

/-- The Twitter-insight extraction of runResearchStage applied to
twitterResult.finalOutput; transcribed separately from its own branch of the
source, which duplicates the parsing logic (including the length logs inside
both try blocks) verbatim. -/
def extractTwitterInsights (finalOutput : Option (List Char)) : Json :=
  match finalOutput with
  | none => Json.arr []
  | some out =>
    if out.isEmpty then Json.arr []
    else
      match jsonParse (trimList (stripFences out)) with
      | some v =>
        if v.isNull then
          match bracketSpan out with
          | some span =>
            (match jsonParse span with
             | some v2 => if v2.isNull then Json.arr [] else v2
             | none => Json.arr [])
          | none => Json.arr []
        else v
      | none =>
        match bracketSpan out with
        | some span =>
          (match jsonParse span with
           | some v2 => if v2.isNull then Json.arr [] else v2
           | none => Json.arr [])
        | none => Json.arr []

/-! ## Audio stage: URL extraction (src/agents/audio.ts and src/nodes/audio.ts)

After the model call, runAudioStage takes rawOutput = result.finalOutput ?? ""
and applies rawOutput.match(/https?:\/\/[^\s\)]+/).  The agents version also
refuses URLs of the integration broker's auth flow. -/

/-- A character the regex class [^\s\)] accepts. -/
def urlCharB (c : Char) : Bool :=
  !jsWhitespaceB c && c ≠ ')'

/-- Lexeme of the secure scheme alternative of the regex. -/
def httpsLex : List Char := "https://".toList

/-- Lexeme of the plain scheme alternative of the regex. -/
def httpLex : List Char := "http://".toList

/-- The match of /https?:\/\/[^\s\)]+/ anchored at the start of s, if any:
the scheme (greedy s?) followed by a non-empty maximal run of class chars. -/
def matchUrlAt (s : List Char) : Option (List Char) :=
  if httpsLex.isPrefixOf s then
    let run := (s.drop 8).takeWhile urlCharB
    if run.isEmpty then none else some (httpsLex ++ run)
  else if httpLex.isPrefixOf s then
    let run := (s.drop 7).takeWhile urlCharB
    if run.isEmpty then none else some (httpLex ++ run)
  else none

/-- String.prototype.match for this regex: the match at the leftmost starting
position. -/
def firstUrlMatch : List Char → Option (List Char)
  | [] => none
  | c :: cs =>
    match matchUrlAt (c :: cs) with
    | some m => some m
    | none => firstUrlMatch cs

/-- Does hay contain needle as a contiguous substring (String.prototype.includes)? -/
def containsSub (needle : List Char) : List Char → Bool
  | [] => needle.isEmpty
  | c :: cs => needle.isPrefixOf (c :: cs) || containsSub needle cs

/-- The substring whose presence in the URL marks an auth link. -/
def composioNeedle : List Char := "connect.composio.dev".toList

namespace NodesAudio

/-- Result shaping of src/nodes/audio.ts runAudioStage: return the first URL
match if any, else the raw output. -/
def runAudioStage (rawOutput : List Char) : List Char :=
  match firstUrlMatch rawOutput with
  | some m => m
  | none => rawOutput

end NodesAudio

namespace AgentsAudio

/-- Message of the error thrown when the extracted URL is an auth link. -/
def authPendingMsg : String :=
  "elevenlabs authentication pending. Please authenticate using the link above and restart."

/-- Result shaping of src/agents/audio.ts runAudioStage: first URL match if
any (throwing if it points at the broker's auth flow), else the raw output. -/
def runAudioStage (rawOutput : List Char) : Except String (List Char) :=
  match firstUrlMatch rawOutput with
  | some m =>
    if containsSub composioNeedle m then Except.error authPendingMsg
    else Except.ok m
  | none => Except.ok rawOutput

end AgentsAudio

/-! ## Human review (src/agents/human_review.ts) -/

/-- The value runHumanReviewNode resolves to. -/
structure ReviewResult where
  approved : Bool
  feedback : Option String

/-- String.prototype.startsWith, phrased over the character lists. -/
def jsStartsWith (s p : String) : Bool :=
  p.toList.isPrefixOf s.toList

/-- runHumanReviewNode, with the interactive answers passed in: isApproved is
the confirm answer and feedbackInput the follow-up text; the first component
records whether the interactive prompt was reached at all.  The JS guard
`if (!script || script.startsWith("Error:"))` returns before any prompt. -/
def runHumanReviewNode (script : Option String) (isApproved : Bool)
    (feedbackInput : String) : Bool × ReviewResult :=
  match script with
  | none => (false, ⟨false, some ("Script generation failed.")⟩)
  | some s =>
    if s = "" || jsStartsWith s ("Error:") then
      (false, ⟨false, some ("Script generation failed.")⟩)
    else
      (true, if isApproved then ⟨true, none⟩ else ⟨false, some feedbackInput⟩)

/-! ## Video stage: the bounded polling loop (src/agents/video_generation.ts)

The remote status endpoint is modelled as a function from the attempt index to
the response's data field (`(statusResp.data as any)?.data`), which may be
absent. -/

/-- The fields of one status response the loop reads. -/
structure StatusData where
  status : Option String
  video_url : String
  error : String

/-- Outcome of the polling loop. -/
inductive PollResult where
  | completed (videoUrl : String) : PollResult
  | failed (message : String) : PollResult
  | timeout : PollResult

/-- Milliseconds waited between polls. -/
def POLLING_INTERVAL : Nat := 15000

/-- Maximum number of status queries before timing out. -/
def MAX_POLLING_ATTEMPTS : Nat := 60

/-- The status field the loop inspects on attempt k. -/
def pollStatus (f : Nat → Option StatusData) (k : Nat) : Option String :=
  match f k with
  | some d => d.status
  | none => none

/-- The while loop of runVideoGenerationStage: with r attempts of budget left
and a attempts made, query f a; "completed" returns the video_url, "failed"
throws with the error payload embedded, anything else (including an absent
status) retries after the interval; an exhausted budget times out. -/
def pollAux (f : Nat → Option StatusData) : Nat → Nat → PollResult
  | 0, _ => PollResult.timeout
  | r + 1, a =>
    match f a with
    | some d =>
      if d.status = some ("completed") then PollResult.completed d.video_url
      else if d.status = some ("failed") then
        PollResult.failed ("Generation Failed: " ++ d.error)
      else pollAux f r (a + 1)
    | none => pollAux f r (a + 1)

/-- The polling phase of runVideoGenerationStage (agents version): attempts
start at 0 and the loop runs while attempts < MAX_POLLING_ATTEMPTS. -/
def runVideoGenerationPolling (f : Nat → Option StatusData) : PollResult :=
  pollAux f MAX_POLLING_ATTEMPTS 0

/-! ## Connection resolution (src/composio/client.ts, getActiveConnectionId) -/

/-- The toolkit of a connected account. -/
structure Toolkit where
  slug : String

/-- The auth configuration of a connected account. -/
structure AuthConfig where
  id : String

/-- A connected account as returned by composio.connectedAccounts.list. -/
structure ConnectedAccount where
  id : String
  toolkit : Toolkit
  authConfig : AuthConfig
  status : String
  userId : String

/-- The filter object passed to composio.connectedAccounts.list. -/
structure ConnectionListQuery where
  userIds : List String
  statuses : List String

/-- The query getActiveConnectionId issues for the configured user. -/
def connectionQuery (userId : String) : ConnectionListQuery :=
  ⟨[userId], ["ACTIVE"]⟩

/-- String.prototype.toLowerCase restricted to ASCII letters, the alphabet of
toolkit slugs. -/
def toLowerCaseStr (s : String) : String :=
  String.mk (s.data.map (fun c =>
    if 'A' ≤ c ∧ c ≤ 'Z' then Char.ofNat (c.toNat + 32) else c))

/-- The predicate of connections.items.find: slug matches case-insensitively,
and when a non-falsy authConfigId was supplied the account's auth config
matches it (`!authConfigId ||` also passes the empty string). -/
def connMatches (toolkitSlug : String) (authConfigId : Option String)
    (c : ConnectedAccount) : Bool :=
  (toLowerCaseStr c.toolkit.slug == toLowerCaseStr toolkitSlug) &&
  (match authConfigId with
   | none => true
   | some a => if a = "" then true else c.authConfig.id == a)

/-- getActiveConnectionId given the items the list call returned: the first
matching connection's id, or an error naming the toolkit and the user. -/
def getActiveConnectionId (userId : String) (items : List ConnectedAccount)
    (toolkitSlug : String) (authConfigId : Option String) : Except String String :=
  match items.find? (connMatches toolkitSlug authConfigId) with
  | some c => Except.ok c.id
  | none =>
    Except.error ("No active connection found for " ++ toolkitSlug ++
      ". Please authenticate User: " ++ userId)

/-! ## The pipeline driver (src/index.ts main, four-stage version)

The stages are external collaborators; main's own logic is the sequencing:
research, then the scripting/review loop until approval, then audio guarded
by `if (state.script)`, then video guarded by `if (state.audioUrl)`.  The run
also records the order in which stage bodies executed. -/

/-- A video reference of state.ts. -/
structure VideoReference where
  title : String
  url : String
  videoId : String
  viewCount : Option String

/-- A Twitter insight of state.ts. -/
structure TwitterInsight where
  text : String
  url : String
  likes : Int
  comments : Int
  views : Int

/-- The research payload of state.ts. -/
structure ResearchData where
  videos : List VideoReference
  rawTranscripts : String
  trends : String
  twitterInsights : Option (List TwitterInsight)

/-- The pipeline state of state.ts (optional fields are undefined-able). -/
structure AgentState where
  topic : String
  researchData : Option ResearchData
  script : Option String
  feedback : Option String
  audioUrl : Option String

/-- One stage body starting, in execution order. -/
inductive Event where
  | research : Event
  | scripting : Event
  | review : Event
  | audio : Event
  | video : Event
deriving DecidableEq

/-- A status payload with the terminal "completed" status, used to close the
polling statements on a concrete run. -/
def sampleCompleted : StatusData :=
  ⟨some ("completed"), "https://video.example/out.mp4", ""⟩

/-- A status endpoint that always reports sampleCompleted. -/
def sampleStatusFn : Nat → Option StatusData := fun _ => some sampleCompleted

/-- A connected account used to close the resolution statements concretely. -/
def sampleAccount : ConnectedAccount :=
  ⟨"cn_1", ⟨"heygen"⟩, ⟨"ac_1"⟩, "ACTIVE", "default-user"⟩

/-- A one-element account listing. -/
def sampleAccounts : List ConnectedAccount := [sampleAccount]

/-- The `while (!scriptApproved)` loop of main: generate a script from the
current state, review it; approval clears the feedback and exits, rejection
stores the feedback and repeats.  Fuel bounds the rounds; none models a run
in which the reviewer never approves within the fuel. -/
def reviewLoop (scriptFn : AgentState → Option String)
    (reviewFn : Option String → ReviewResult) :
    Nat → AgentState → Option (AgentState × List Event)
  | 0, _ => none
  | n + 1, st =>
    let script := scriptFn st
    let r := reviewFn script
    if r.approved then
      some ({ st with script := script, feedback := none },
        [Event.scripting, Event.review])
    else
      match reviewLoop scriptFn reviewFn n
          { st with script := script, feedback := r.feedback } with
      | some (stF, evs) => some (stF, Event.scripting :: Event.review :: evs)
      | none => none

/-- The state main builds before stage 1 hands over to the loop: the topic
plus the collected research data. -/
def initState (researchFn : String → ResearchData) (topic : String) : AgentState :=
  { topic := topic, researchData := some (researchFn topic),
    script := none, feedback := none, audioUrl := none }

/-- Stage 3 of main: `if (state.script)` — run audio on a truthy script and
store the audio URL, otherwise skip. -/
def audioStep (audioFn : String → String) (st : AgentState) :
    AgentState × List Event :=
  match st.script with
  | some s =>
    if s = "" then (st, [])
    else ({ st with audioUrl := some (audioFn s) }, [Event.audio])
  | none => (st, [])

/-- Stage 4 of main: `if (state.audioUrl)` — run video on a truthy audio URL,
otherwise skip. -/
def videoStep (videoFn : String → String) (st : AgentState) :
    Option String × List Event :=
  match st.audioUrl with
  | some u => if u = "" then (none, []) else (some (videoFn u), [Event.video])
  | none => (none, [])

/-- main of src/index.ts, with each stage an explicit collaborator.  Returns
the final state, the video stage's result if it ran, and the event trace. -/
def mainRun (researchFn : String → ResearchData)
    (scriptFn : AgentState → Option String)
    (reviewFn : Option String → ReviewResult)
    (audioFn : String → String) (videoFn : String → String)
    (fuel : Nat) (topic : String) :
    Option (AgentState × Option String × List Event) :=
  match reviewLoop scriptFn reviewFn fuel (initState researchFn topic) with
  | none => none
  | some (st2, loopEvs) =>
    some ((audioStep audioFn st2).1,
      (videoStep videoFn (audioStep audioFn st2).1).1,
      Event.research :: loopEvs ++ (audioStep audioFn st2).2 ++
        (videoStep videoFn (audioStep audioFn st2).1).2)

/-- Sample research payload for concrete pipeline runs. -/
def sampleResearch : ResearchData := ⟨[], "", "", none⟩

/-- A scripting stage that always yields the same script. -/
def sampleScriptFn : AgentState → Option String := fun _ => some ("hook body cta")

/-- A reviewer who approves on the first round. -/
def sampleReviewFn : Option String → ReviewResult := fun _ => ⟨true, none⟩

/-- An audio stage returning a fixed URL. -/
def sampleAudioFn : String → String := fun _ => "https://audio.example/a.mp3"

/-- A video stage returning a fixed URL. -/
def sampleVideoFn : String → String := fun _ => "https://video.example/v.mp4"

/-- The final state of the sample pipeline run. -/
def sampleFinalState : AgentState :=
  ⟨"t", some sampleResearch, some ("hook body cta"), none,
    some ("https://audio.example/a.mp3")⟩

/-- The event trace of the sample pipeline run. -/
def sampleTrace : List Event :=
  [Event.research, Event.scripting, Event.review, Event.audio, Event.video]

/-! ## Helper lemmas -/

/-- A never-terminal status stream makes the loop run to the end of any
budget. -/
lemma pollAux_all_continue (f : Nat → Option StatusData)
    (hf : ∀ k, pollStatus f k ≠ some ("completed") ∧ pollStatus f k ≠ some ("failed")) :
    ∀ r a, pollAux f r a = PollResult.timeout := by
  intro r
  induction r with
  | zero => intro a; rfl
  | succ r ih =>
    intro a
    have h := hf a
    unfold pollStatus at h
    cases hfa : f a with
    | none => simp only [pollAux, hfa]; exact ih (a + 1)
    | some d =>
      rw [hfa] at h
      simp only [pollAux, hfa, if_neg h.1, if_neg h.2]
      exact ih (a + 1)

/-- The loop only reads the status stream at the attempt indices inside its
budget. -/
lemma pollAux_congr (f g : Nat → Option StatusData) :
    ∀ r a, (∀ k, a ≤ k → k < a + r → f k = g k) →
    pollAux f r a = pollAux g r a := by
  intro r
  induction r with
  | zero => intro a _; rfl
  | succ r ih =>
    intro a hag
    have hfa : f a = g a := hag a (Nat.le_refl a) (by omega)
    have htail : ∀ k, a + 1 ≤ k → k < a + 1 + r → f k = g k := by
      intro k h1 h2; exact hag k (by omega) (by omega)
    cases hga : g a with
    | none =>
      simp only [pollAux, hfa, hga]
      exact ih (a + 1) htail
    | some d =>
      simp only [pollAux, hfa, hga]
      by_cases h1 : d.status = some ("completed")
      · simp [h1]
      · by_cases h2 : d.status = some ("failed")
        · simp [h1, h2]
        · simp only [if_neg h1, if_neg h2]
          exact ih (a + 1) htail

/-! ## Claims -/

/-- C1: the remote-job poller of runVideoGenerationStage queries the status
endpoint on a fixed 15-second interval and performs at most a fixed maximum
number of attempts (60); whenever no status query ever returns "completed" or
"failed", the attempt budget is exhausted and the stage raises a timeout
error — in particular the result never depends on responses beyond the
attempt budget, so the stage does not poll forever. -/
theorem video_polling_bounded_timeout :
    POLLING_INTERVAL = 15000 ∧ MAX_POLLING_ATTEMPTS = 60 ∧
    (∀ f : Nat → Option StatusData,
      (∀ k, pollStatus f k ≠ some ("completed") ∧ pollStatus f k ≠ some ("failed")) →
      runVideoGenerationPolling f = PollResult.timeout) ∧
    (∀ f g : Nat → Option StatusData,
      (∀ k, k < MAX_POLLING_ATTEMPTS → f k = g k) →
      runVideoGenerationPolling f = runVideoGenerationPolling g) := by
  refine ⟨rfl, rfl, ?_, ?_⟩
  · intro f hf
    exact pollAux_all_continue f hf MAX_POLLING_ATTEMPTS 0
  · intro f g hag
    exact pollAux_congr f g MAX_POLLING_ATTEMPTS 0 (fun k _ h2 => hag k (by omega))

/-- C1 witness: a status endpoint whose data field is always absent times the
stage out. -/
theorem video_polling_bounded_timeout_witness :
    runVideoGenerationPolling (fun _ => none) = PollResult.timeout :=
  video_polling_bounded_timeout.2.2.1 (fun _ => none)
    (fun k => by simp [pollStatus])

/-- C2: one polling step classifies the polled status: "completed" terminates
the loop returning the status response's video_url, "failed" raises an error
embedding the status response's error payload, and any other status value —
including an absent one — continues with another attempt. -/
theorem video_polling_classification :
    (∀ (f : Nat → Option StatusData) (r a : Nat) (d : StatusData), f a = some d →
      ((d.status = some ("completed") →
        pollAux f (r + 1) a = PollResult.completed d.video_url) ∧
       (d.status = some ("failed") →
        pollAux f (r + 1) a = PollResult.failed ("Generation Failed: " ++ d.error)) ∧
       (d.status ≠ some ("completed") → d.status ≠ some ("failed") →
        pollAux f (r + 1) a = pollAux f r (a + 1)))) ∧
    (∀ (f : Nat → Option StatusData) (r a : Nat), f a = none →
      pollAux f (r + 1) a = pollAux f r (a + 1)) := by
  constructor
  · intro f r a d hfa
    refine ⟨?_, ?_, ?_⟩
    · intro hs; simp [pollAux, hfa, hs]
    · intro hs
      have hne : d.status ≠ some ("completed") := by simp [hs]
      simp [pollAux, hfa, hs, if_neg hne]
    · intro h1 h2; simp [pollAux, hfa, if_neg h1, if_neg h2]
  · intro f r a hfa
    simp [pollAux, hfa]

/-- C2 witness: a "completed" response on the first attempt returns its
video_url. -/
theorem video_polling_classification_witness :
    pollAux sampleStatusFn 1 0 = PollResult.completed ("https://video.example/out.mp4") :=
  (video_polling_classification.1 sampleStatusFn 0 0 sampleCompleted rfl).1 rfl

/-- C5: the fallback extraction parser is the same function for the two
response streams: on every raw output the video-reference extraction and the
Twitter-insight extraction agree. -/
theorem research_parsers_identical :
    ∀ finalOutput : Option (List Char),
      extractVideos finalOutput = extractTwitterInsights finalOutput :=
  fun _ => rfl

/-- C9: runAudioStage (agents version) refuses to return an authentication
link: whenever the first extracted URL contains "connect.composio.dev", the
stage throws the authentication-pending error instead of returning the URL. -/
theorem audio_auth_guard (rawOutput m : List Char)
    (h1 : firstUrlMatch rawOutput = some m)
    (h2 : containsSub composioNeedle m = true) :
    AgentsAudio.runAudioStage rawOutput = Except.error AgentsAudio.authPendingMsg := by
  simp [AgentsAudio.runAudioStage, h1, h2]

/-- C9 witness: an output whose only URL is a composio connect link makes the
stage throw. -/
theorem audio_auth_guard_witness :
    AgentsAudio.runAudioStage (("Click https://connect.composio.dev/el to auth").toList) =
      Except.error AgentsAudio.authPendingMsg :=
  audio_auth_guard (("Click https://connect.composio.dev/el to auth").toList)
    (("https://connect.composio.dev/el").toList) (by decide) (by decide)

/-- C10: runHumanReviewNode rejects without prompting on invalid input: an
absent, empty, or "Error:"-prefixed script yields approved = false with
feedback "Script generation failed." and the prompt flag stays false; the
interactive prompt is reached only with a non-empty script that does not
start with "Error:". -/
theorem human_review_guard (script : Option String) (isApproved : Bool)
    (feedbackInput : String) :
    ((script = none ∨ script = some ("") ∨
        (∃ s, script = some s ∧ jsStartsWith s ("Error:") = true)) →
      runHumanReviewNode script isApproved feedbackInput =
        (false, ⟨false, some ("Script generation failed.")⟩)) ∧
    ((runHumanReviewNode script isApproved feedbackInput).1 = true →
      ∃ s, script = some s ∧ s ≠ "" ∧ jsStartsWith s ("Error:") = false) := by
  constructor
  · intro h
    rcases h with h | h | ⟨s, hs, hsw⟩
    · subst h; rfl
    · subst h; simp [runHumanReviewNode]
    · subst hs; simp [runHumanReviewNode, hsw]
  · intro h
    cases script with
    | none => simp [runHumanReviewNode] at h
    | some s =>
      by_cases h1 : s = ""
      · simp [runHumanReviewNode, h1] at h
      · by_cases h2 : jsStartsWith s ("Error:") = true
        · simp [runHumanReviewNode, h1, h2] at h
        · exact ⟨s, rfl, h1, by simpa using h2⟩

/-- C10 witness: an "Error:"-prefixed script is rejected with the fixed
feedback, whatever the user would have answered. -/
theorem human_review_guard_witness :
    runHumanReviewNode (some ("Error: generation failed")) true ("fb") =
      (false, ⟨false, some ("Script generation failed.")⟩) :=
  (human_review_guard (some ("Error: generation failed")) true ("fb")).1
    (Or.inr (Or.inr ⟨"Error: generation failed", rfl, by decide⟩))

/-- A value other than null has a false null discriminator. -/
lemma isNull_false {v : Json} (hv : v ≠ Json.null) : Json.isNull v = false := by
  cases v with
  | null => exact absurd rfl hv
  | bool b => rfl
  | num l => rfl
  | str s => rfl
  | arr es => rfl
  | obj ms => rfl

/-- C3 counterexample: on the output "null" the strict parse SUCCEEDS with
the null value, yet the code lands in the fallback — the success log inside
the try throws reading null.length — and returns the empty collection, so a
successful strict parse of the trimmed remainder is not what decides against
the fallback. -/
theorem research_strict_null_counterexample :
    jsonParse (trimList (stripFences (("null").toList))) = some Json.null ∧
    extractVideos (some (("null").toList)) = Json.arr [] ∧
    Json.arr [] ≠ Json.null := by
  refine ⟨rfl, rfl, ?_⟩
  intro h
  cases h

/-- C3 (amended): the extraction parser proceeds in stages — strip the
fences, strictly parse the trimmed remainder, and keep a successful non-null
parse; a parsed null throws inside the try on the length log and falls to the
fallback exactly like a parse failure; the fallback retries the parse on the
regex-matched bracketed span, keeping a non-null retry value; when the retry
fails or yields null, or no span exists, or the output is absent, the result
is the empty collection. -/
theorem research_parser_stages :
    extractVideos none = Json.arr [] ∧
    (∀ (out : List Char) (v : Json),
      jsonParse (trimList (stripFences out)) = some v → Json.isNull v = false →
      extractVideos (some out) = v) ∧
    (∀ (out span : List Char) (v2 : Json),
      (jsonParse (trimList (stripFences out)) = none ∨
        jsonParse (trimList (stripFences out)) = some Json.null) →
      bracketSpan out = some span → jsonParse span = some v2 →
      Json.isNull v2 = false →
      extractVideos (some out) = v2) ∧
    (∀ (out span : List Char),
      (jsonParse (trimList (stripFences out)) = none ∨
        jsonParse (trimList (stripFences out)) = some Json.null) →
      bracketSpan out = some span →
      (jsonParse span = none ∨ jsonParse span = some Json.null) →
      extractVideos (some out) = Json.arr []) ∧
    (∀ out : List Char,
      (jsonParse (trimList (stripFences out)) = none ∨
        jsonParse (trimList (stripFences out)) = some Json.null) →
      bracketSpan out = none →
      extractVideos (some out) = Json.arr []) := by
  refine ⟨rfl, ?_, ?_, ?_, ?_⟩
  · intro out v h hnn
    cases out with
    | nil =>
      have h2 : (none : Option Json) = some v := h
      cases h2
    | cons c cs => simp [extractVideos, h, hnn]
  · intro out span v2 h1 h2 h3 hnn
    cases out with
    | nil =>
      have h4 : (none : Option (List Char)) = some span := h2
      cases h4
    | cons c cs =>
      have hn : Json.isNull Json.null = true := rfl
      rcases h1 with h1 | h1 <;> simp [extractVideos, h1, h2, h3, hnn, hn]
  · intro out span h1 h2 h3
    cases out with
    | nil =>
      have h4 : (none : Option (List Char)) = some span := h2
      cases h4
    | cons c cs =>
      rcases h1 with h1 | h1 <;> rcases h3 with h3 | h3 <;>
        simp [extractVideos, h1, h2, h3, Json.isNull]
  · intro out h1 h2
    cases out with
    | nil => rfl
    | cons c cs =>
      rcases h1 with h1 | h1 <;> simp [extractVideos, h1, h2, Json.isNull]

/-- C3 witness: a chatty output whose strict parse fails is recovered through
the bracketed span. -/
theorem research_parser_stages_witness :
    jsonParse (trimList (stripFences (("text [1, 2] ").toList))) = none ∧
    bracketSpan (("text [1, 2] ").toList) = some (("[1, 2]").toList) ∧
    jsonParse (("[1, 2]").toList) = some (Json.arr [Json.num ['1'], Json.num ['2']]) ∧
    extractVideos (some (("text [1, 2] ").toList)) =
      Json.arr [Json.num ['1'], Json.num ['2']] :=
  ⟨rfl, rfl, rfl,
    research_parser_stages.2.2.1 (("text [1, 2] ").toList) (("[1, 2]").toList)
      (Json.arr [Json.num ['1'], Json.num ['2']]) (Or.inl rfl) rfl rfl rfl⟩

/-- No URL match at any position means the scan returns none. -/
lemma firstUrlMatch_none_of (raw : List Char)
    (h : ∀ i, matchUrlAt (raw.drop i) = none) : firstUrlMatch raw = none := by
  induction raw with
  | nil => rfl
  | cons c cs ih =>
    have h0 := h 0
    rw [List.drop_zero] at h0
    simp only [firstUrlMatch, h0]
    exact ih (fun i => by have hi := h (i + 1); rwa [List.drop_succ_cons] at hi)

/-- When some position matches, the scan returns the match at the leftmost
matching position. -/
lemma firstUrlMatch_found (raw : List Char)
    (h : ∃ i, (matchUrlAt (raw.drop i)).isSome = true) :
    ∃ i m, matchUrlAt (raw.drop i) = some m ∧
      (∀ j, j < i → matchUrlAt (raw.drop j) = none) ∧
      firstUrlMatch raw = some m := by
  induction raw with
  | nil =>
    obtain ⟨i, hi⟩ := h
    rw [List.drop_nil] at hi
    have hnil : matchUrlAt ([] : List Char) = none := rfl
    rw [hnil] at hi
    cases hi
  | cons c cs ih =>
    cases hm : matchUrlAt (c :: cs) with
    | some m =>
      refine ⟨0, m, by rwa [List.drop_zero], fun j hj => absurd hj (by omega), ?_⟩
      simp [firstUrlMatch, hm]
    | none =>
      obtain ⟨i, hi⟩ := h
      cases i with
      | zero => rw [List.drop_zero, hm] at hi; cases hi
      | succ i2 =>
        rw [List.drop_succ_cons] at hi
        obtain ⟨i, m, h1, h2, h3⟩ := ih ⟨i2, hi⟩
        refine ⟨i + 1, m, by rwa [List.drop_succ_cons], ?_, ?_⟩
        · intro j hj
          cases j with
          | zero => rwa [List.drop_zero]
          | succ j2 => rw [List.drop_succ_cons]; exact h2 j2 (by omega)
        · simp [firstUrlMatch, hm, h3]

/-- Shape of a successful anchored match: a scheme lexeme followed by the
maximal non-empty run of characters outside the class of whitespace and the
closing parenthesis. -/
lemma matchUrlAt_shape (t m : List Char) (h : matchUrlAt t = some m) :
    ∃ pfx rest, (pfx = httpsLex ∨ pfx = httpLex) ∧ t = pfx ++ rest ∧
      rest.takeWhile urlCharB ≠ [] ∧ m = pfx ++ rest.takeWhile urlCharB := by
  by_cases h1 : httpsLex.isPrefixOf t
  · obtain ⟨rest, hrest⟩ : httpsLex <+: t := by
      rwa [← List.isPrefixOf_iff_prefix]
    have hdrop : t.drop 8 = rest := by
      rw [← hrest]; exact List.drop_left' (by rfl)
    simp only [matchUrlAt, h1, if_true, hdrop] at h
    by_cases h2 : (rest.takeWhile urlCharB).isEmpty
    · rw [if_pos h2] at h; cases h
    · rw [if_neg h2] at h
      injection h with hm
      exact ⟨httpsLex, rest, Or.inl rfl, hrest.symm,
        by simpa [List.isEmpty_iff] using h2, hm.symm⟩
  · by_cases h2 : httpLex.isPrefixOf t
    · obtain ⟨rest, hrest⟩ : httpLex <+: t := by
        rwa [← List.isPrefixOf_iff_prefix]
      have hdrop : t.drop 7 = rest := by
        rw [← hrest]; exact List.drop_left' (by rfl)
      simp only [matchUrlAt, h1, h2, if_true, if_false, Bool.false_eq_true, hdrop] at h
      by_cases h3 : (rest.takeWhile urlCharB).isEmpty
      · rw [if_pos h3] at h; cases h
      · rw [if_neg h3] at h
        injection h with hm
        exact ⟨httpLex, rest, Or.inr rfl, hrest.symm,
          by simpa [List.isEmpty_iff] using h3, hm.symm⟩
    · simp only [matchUrlAt, h1, h2, Bool.false_eq_true, if_false] at h
      cases h

/-- C8: runAudioStage regex-extracts a URL: when some position of the output
matches http:// or https:// followed by a non-empty run of characters that
are neither whitespace nor a closing parenthesis, the stage returns the match
at the leftmost such position (the agents version, absent the auth-link
needle, wraps it in a success); when no position matches, the raw output is
returned unchanged. -/
theorem audio_url_extraction :
    (∀ rawOutput : List Char,
      (∃ i, (matchUrlAt (rawOutput.drop i)).isSome = true) →
      ∃ i m, matchUrlAt (rawOutput.drop i) = some m ∧
        (∀ j, j < i → matchUrlAt (rawOutput.drop j) = none) ∧
        NodesAudio.runAudioStage rawOutput = m ∧
        (containsSub composioNeedle m = false →
          AgentsAudio.runAudioStage rawOutput = Except.ok m)) ∧
    (∀ rawOutput : List Char,
      (∀ i, matchUrlAt (rawOutput.drop i) = none) →
      NodesAudio.runAudioStage rawOutput = rawOutput ∧
      AgentsAudio.runAudioStage rawOutput = Except.ok rawOutput) ∧
    (∀ t m : List Char, matchUrlAt t = some m →
      ∃ pfx rest, (pfx = httpsLex ∨ pfx = httpLex) ∧ t = pfx ++ rest ∧
        rest.takeWhile urlCharB ≠ [] ∧ m = pfx ++ rest.takeWhile urlCharB) := by
  refine ⟨?_, ?_, matchUrlAt_shape⟩
  · intro rawOutput hex
    obtain ⟨i, m, h1, h2, h3⟩ := firstUrlMatch_found rawOutput hex
    refine ⟨i, m, h1, h2, ?_, ?_⟩
    · simp [NodesAudio.runAudioStage, h3]
    · intro hc; simp [AgentsAudio.runAudioStage, h3, hc]
  · intro rawOutput hall
    have hnone := firstUrlMatch_none_of rawOutput hall
    exact ⟨by simp [NodesAudio.runAudioStage, hnone],
      by simp [AgentsAudio.runAudioStage, hnone]⟩

/-- C8 witness: an output with one URL mid-sentence yields that URL from both
stage versions. -/
theorem audio_url_extraction_witness :
    ∃ i m, matchUrlAt ((("see https://a.io/x now").toList).drop i) = some m ∧
      (∀ j, j < i → matchUrlAt ((("see https://a.io/x now").toList).drop j) = none) ∧
      NodesAudio.runAudioStage (("see https://a.io/x now").toList) = m ∧
      (containsSub composioNeedle m = false →
        AgentsAudio.runAudioStage (("see https://a.io/x now").toList) = Except.ok m) :=
  audio_url_extraction.1 (("see https://a.io/x now").toList) ⟨4, by decide⟩

/-- C7: getActiveConnectionId queries the configured user's ACTIVE
connections, returns the id of a listed account whose toolkit slug matches
the requested slug case-insensitively (and whose auth config matches a
supplied non-empty auth-config id), and errors naming the toolkit and the
user when no listed account matches. -/
theorem connection_resolution (userId toolkitSlug : String)
    (authConfigId : Option String) (items : List ConnectedAccount)
    (hitems : ∀ c ∈ items, c.status = "ACTIVE" ∧ c.userId = userId) :
    connectionQuery userId = ⟨[userId], ["ACTIVE"]⟩ ∧
    (∀ cid, getActiveConnectionId userId items toolkitSlug authConfigId = Except.ok cid →
      ∃ c ∈ items, c.id = cid ∧ c.status = "ACTIVE" ∧ c.userId = userId ∧
        toLowerCaseStr c.toolkit.slug = toLowerCaseStr toolkitSlug ∧
        (∀ a, authConfigId = some a → a ≠ "" → c.authConfig.id = a)) ∧
    ((∀ c ∈ items, connMatches toolkitSlug authConfigId c = false) →
      getActiveConnectionId userId items toolkitSlug authConfigId =
        Except.error ("No active connection found for " ++ toolkitSlug ++
          ". Please authenticate User: " ++ userId)) := by
  refine ⟨rfl, ?_, ?_⟩
  · intro cid h
    unfold getActiveConnectionId at h
    cases hf : items.find? (connMatches toolkitSlug authConfigId) with
    | none => rw [hf] at h; cases h
    | some c =>
      rw [hf] at h
      injection h with hcid
      have hmem := List.mem_of_find?_eq_some hf
      have hp := List.find?_some hf
      obtain ⟨hact, huid⟩ := hitems c hmem
      have hp2 := hp
      unfold connMatches at hp2
      rw [Bool.and_eq_true] at hp2
      obtain ⟨hslug, hauth⟩ := hp2
      refine ⟨c, hmem, hcid, hact, huid, by simpa using hslug, ?_⟩
      intro a ha hne
      subst ha
      simp only [if_neg hne] at hauth
      exact eq_of_beq hauth
  · intro hnone
    unfold getActiveConnectionId
    have hf : items.find? (connMatches toolkitSlug authConfigId) = none := by
      rw [List.find?_eq_none]
      intro c hc
      simp [hnone c hc]
    rw [hf]

/-- C7 witness: a HEYGEN lookup over a listing holding one active heygen
account of the user resolves to that account's id. -/
theorem connection_resolution_witness :
    ∃ c ∈ sampleAccounts, c.id = "cn_1" ∧ c.status = "ACTIVE" ∧
      c.userId = "default-user" ∧
      toLowerCaseStr c.toolkit.slug = toLowerCaseStr ("HEYGEN") ∧
      (∀ a, (none : Option String) = some a → a ≠ "" → c.authConfig.id = a) :=
  (connection_resolution "default-user" "HEYGEN" none sampleAccounts
    (by decide)).2.1 "cn_1" rfl

/-- The head surviving dropWhile fails the predicate. -/
lemma dropWhile_head_false {α : Type} (p : α → Bool) :
    ∀ (l : List α) (c : α) (cs : List α), l.dropWhile p = c :: cs → p c = false := by
  intro l
  induction l with
  | nil => intro c cs h; cases h
  | cons a t ih =>
    intro c cs h
    by_cases hp : p a = true
    · rw [List.dropWhile_cons, if_pos hp] at h
      exact ih c cs h
    · rw [List.dropWhile_cons, if_neg hp] at h
      injection h with h1 _
      subst h1
      simpa using hp

/-- Unfolding a successful bracketSpan. -/
lemma bracketSpan_eq_some {out sp : List Char} (h : bracketSpan out = some sp) :
    sp = ((out.dropWhile notLBrack).reverse.dropWhile notRBrack).reverse ∧
    sp ≠ [] := by
  simp only [bracketSpan] at h
  by_cases he :
      (((out.dropWhile notLBrack).reverse.dropWhile notRBrack).reverse).isEmpty = true
  · rw [if_pos he] at h; cases h
  · rw [if_neg he] at h
    injection h with h
    refine ⟨h.symm, ?_⟩
    intro hnil
    rw [← h] at hnil
    exact he (by simp [hnil])

/-- The matched span runs from the first left bracket of the output to its
last right bracket. -/
lemma bracketSpan_decomp (out sp : List Char) (h : bracketSpan out = some sp) :
    ∃ pre post, out = pre ++ sp ++ post ∧
      (∀ c ∈ pre, c ≠ '[') ∧ (∀ c ∈ post, c ≠ ']') ∧
      sp.head? = some '[' ∧ sp.getLast? = some ']' := by
  obtain ⟨hspeq, hne⟩ := bracketSpan_eq_some h
  have hsplit : (out.dropWhile notLBrack).reverse =
      (out.dropWhile notLBrack).reverse.takeWhile notRBrack ++
      (out.dropWhile notLBrack).reverse.dropWhile notRBrack :=
    (List.takeWhile_append_dropWhile notRBrack (out.dropWhile notLBrack).reverse).symm
  have hmid : out.dropWhile notLBrack =
      sp ++ ((out.dropWhile notLBrack).reverse.takeWhile notRBrack).reverse := by
    conv_lhs => rw [← List.reverse_reverse (out.dropWhile notLBrack)]
    rw [hspeq]
    conv_lhs => rw [hsplit]
    rw [List.reverse_append]
  refine ⟨out.takeWhile notLBrack,
    ((out.dropWhile notLBrack).reverse.takeWhile notRBrack).reverse,
    ?_, ?_, ?_, ?_, ?_⟩
  · calc out = out.takeWhile notLBrack ++ out.dropWhile notLBrack :=
        (List.takeWhile_append_dropWhile notLBrack out).symm
    _ = out.takeWhile notLBrack ++
        (sp ++ ((out.dropWhile notLBrack).reverse.takeWhile notRBrack).reverse) := by
        conv_lhs => rw [hmid]
    _ = out.takeWhile notLBrack ++ sp ++
        ((out.dropWhile notLBrack).reverse.takeWhile notRBrack).reverse :=
        (List.append_assoc _ _ _).symm
  · intro c hc
    have hp := List.mem_takeWhile_imp hc
    simpa [notLBrack] using hp
  · intro c hc
    rw [List.mem_reverse] at hc
    have hp := List.mem_takeWhile_imp hc
    simpa [notRBrack] using hp
  · obtain ⟨a, as, ha⟩ : ∃ a as, sp = a :: as := by
      cases sp with
      | nil => exact absurd rfl hne
      | cons a as => exact ⟨a, as, rfl⟩
    have hcons : out.dropWhile notLBrack =
        a :: (as ++ ((out.dropWhile notLBrack).reverse.takeWhile notRBrack).reverse) := by
      conv_lhs => rw [hmid, ha]
      rfl
    have hfa := dropWhile_head_false notLBrack out a _ hcons
    have ha2 : a = '[' := by simpa [notLBrack] using hfa
    rw [ha, ha2]; rfl
  · rw [hspeq, List.getLast?_reverse]
    cases hd : (out.dropWhile notLBrack).reverse.dropWhile notRBrack with
    | nil => exact absurd (by rw [hspeq, hd]; rfl) hne
    | cons b bs =>
      have hfb := dropWhile_head_false notRBrack _ b bs hd
      have hb : b = ']' := by simpa [notRBrack] using hfb
      rw [hb]
      rfl

/-- parseElems only ever produces arrays. -/
lemma parseElems_arr :
    ∀ (fuel : Nat) (acc : List Json) (s : List Char) (v : Json) (r : List Char),
      parseElems fuel acc s = some (v, r) → ∃ es, v = Json.arr es := by
  intro fuel
  induction fuel with
  | zero => intro acc s v r h; cases h
  | succ fuel ih =>
    intro acc s v r h
    simp only [parseElems] at h
    split at h
    · cases h
    · split at h
      · exact ih _ _ _ _ h
      · injection h with h
        rw [Prod.mk.injEq] at h
        exact ⟨_, h.1.symm⟩
      · cases h

set_option maxHeartbeats 1000000 in
/-- A value parsed from input whose first significant character is a left
bracket is an array. -/
lemma parseValue_lbrack_arr (fuel : Nat) (s t r : List Char) (v : Json)
    (hw : skipWs s = '[' :: t) (h : parseValue fuel s = some (v, r)) :
    ∃ es, v = Json.arr es := by
  cases fuel with
  | zero => cases h
  | succ fuel =>
    simp only [parseValue, hw] at h
    split at h
    · injection h with h
      rw [Prod.mk.injEq] at h
      exact ⟨[], h.1.symm⟩
    · exact parseElems_arr fuel [] _ v r h

/-- jsonParse of a span that starts with a left bracket never yields null. -/
lemma jsonParse_lbrack_not_null (sp : List Char) (hh : sp.head? = some '[')
    (h : jsonParse sp = some Json.null) : False := by
  obtain ⟨c, cs, rfl⟩ : ∃ c cs, sp = c :: cs := by
    cases sp with
    | nil => cases hh
    | cons c cs => exact ⟨c, cs, rfl⟩
  have hc : c = '[' := by simpa using hh
  subst hc
  have hnw : isJsonWs '[' = false := by decide
  have hskip : skipWs ('[' :: cs) = '[' :: cs := by
    simp [skipWs, List.dropWhile_cons, hnw]
  simp only [jsonParse] at h
  cases hv : parseValue (2 * ('[' :: cs).length + 2) ('[' :: cs) with
  | none =>
    simp only [hv] at h
    cases h
  | some p =>
    obtain ⟨v, rest⟩ := p
    simp only [hv] at h
    obtain ⟨es, rfl⟩ := parseValue_lbrack_arr _ _ cs _ _ hskip hv
    by_cases he : (skipWs rest).isEmpty = true
    · rw [if_pos he] at h
      injection h with h
      cases h
    · rw [if_neg he] at h
      cases h

/-- C4 counterexample: on the output "x[1]y]" the first bracketed span "[1]"
is valid JSON, yet the parser returns the empty collection, because the
greedy regex hands the retry the span "[1]y]" running to the LAST right
bracket, which is not valid JSON — refuting the claim that the retried span
ends at the earliest closing bracket and that such outputs are recovered. -/
theorem research_first_span_counterexample :
    bracketSpan (("x[1]y]").toList) = some (("[1]y]").toList) ∧
    jsonParse (("[1]").toList) = some (Json.arr [Json.num ['1']]) ∧
    jsonParse (trimList (stripFences (("x[1]y]").toList))) = none ∧
    extractVideos (some (("x[1]y]").toList)) = Json.arr [] ∧
    Json.arr [] ≠ Json.arr [Json.num ['1']] := by
  refine ⟨rfl, rfl, rfl, rfl, ?_⟩
  intro heq
  injection heq with h
  cases h

/-- C4 (amended): when the strict parse fails, the span the fallback retries
on is the GREEDY bracketed span of the output — from the first left bracket
to the last right bracket, with no left bracket before it and no right
bracket after it — and the extraction result is that span's parse when it
succeeds and the empty collection otherwise. -/
theorem research_fallback_greedy_span (out sp : List Char)
    (h : bracketSpan out = some sp) :
    (∃ pre post, out = pre ++ sp ++ post ∧
      (∀ c ∈ pre, c ≠ '[') ∧ (∀ c ∈ post, c ≠ ']') ∧
      sp.head? = some '[' ∧ sp.getLast? = some ']') ∧
    (jsonParse (trimList (stripFences out)) = none →
      extractVideos (some out) = (jsonParse sp).getD (Json.arr [])) := by
  refine ⟨bracketSpan_decomp out sp h, ?_⟩
  intro hstrict
  cases out with
  | nil =>
    have h2 : (none : Option (List Char)) = some sp := h
    cases h2
  | cons c cs =>
    obtain ⟨pre, post, hout, hpre, hpost, hhead, hlast⟩ := bracketSpan_decomp _ sp h
    cases hj : jsonParse sp with
    | some v =>
      have hvn : v ≠ Json.null := by
        intro hv; subst hv; exact jsonParse_lbrack_not_null sp hhead hj
      simp [extractVideos, hstrict, h, hj, isNull_false hvn]
    | none => simp [extractVideos, hstrict, h, hj]

/-- C4 witness: on "x[1]y]" the retried span is "[1]y]", whose failed parse
leaves the empty collection. -/
theorem research_fallback_greedy_span_witness :
    extractVideos (some (("x[1]y]").toList)) =
      (jsonParse (("[1]y]").toList)).getD (Json.arr []) :=
  (research_fallback_greedy_span (("x[1]y]").toList) (("[1]y]").toList) rfl).2 rfl

/-- What a terminating scripting/review loop guarantees: the final script was
approved by the reviewer, only scripting and review events were emitted, and
the loop never touches the audio URL. -/
lemma reviewLoop_spec (sf : AgentState → Option String)
    (rvf : Option String → ReviewResult) :
    ∀ (n : Nat) (st stF : AgentState) (evs : List Event),
      reviewLoop sf rvf n st = some (stF, evs) →
      (rvf stF.script).approved = true ∧
      (∀ e ∈ evs, e = Event.scripting ∨ e = Event.review) ∧
      stF.audioUrl = st.audioUrl := by
  intro n
  induction n with
  | zero => intro st stF evs h; cases h
  | succ n ih =>
    intro st stF evs h
    simp only [reviewLoop] at h
    by_cases happ : (rvf (sf st)).approved = true
    · rw [if_pos happ] at h
      injection h with h
      rw [Prod.mk.injEq] at h
      obtain ⟨h1, h2⟩ := h
      subst h1
      subst h2
      exact ⟨happ, by decide, rfl⟩
    · rw [if_neg happ] at h
      cases hrec : reviewLoop sf rvf n
          { st with script := sf st, feedback := (rvf (sf st)).feedback } with
      | none => rw [hrec] at h; cases h
      | some p =>
        obtain ⟨stF2, evs2⟩ := p
        rw [hrec] at h
        injection h with h
        rw [Prod.mk.injEq] at h
        obtain ⟨h1, h2⟩ := h
        subst h1
        subst h2
        obtain ⟨ih1, ih2, ih3⟩ := ih _ _ _ hrec
        refine ⟨ih1, ?_, ih3⟩
        intro e he
        rcases List.mem_cons.mp he with rfl | he2
        · exact Or.inl rfl
        · rcases List.mem_cons.mp he2 with rfl | he3
          · exact Or.inr rfl
          · exact ih2 e he3

/-- C6: the pipeline is strictly sequential — the trace is research, then
scripting/review rounds, then at most an audio start followed by at most a
video start; the audio stage runs only on a non-empty script the reviewer
approved and stores that script's audio URL; the video stage runs only after
the audio stage, consuming the stored audio URL. -/
theorem pipeline_sequential
    (rf : String → ResearchData) (sf : AgentState → Option String)
    (rvf : Option String → ReviewResult) (af vf : String → String)
    (fuel : Nat) (topic : String) (st : AgentState) (vout : Option String)
    (tr : List Event)
    (h : mainRun rf sf rvf af vf fuel topic = some (st, vout, tr)) :
    (∃ loopEvs tail, tr = Event.research :: (loopEvs ++ tail) ∧
      (∀ e ∈ loopEvs, e = Event.scripting ∨ e = Event.review) ∧
      (tail = [] ∨ tail = [Event.audio] ∨ tail = [Event.audio, Event.video])) ∧
    (Event.audio ∈ tr → ∃ s, st.script = some s ∧ s ≠ "" ∧
      (rvf (some s)).approved = true ∧ st.audioUrl = some (af s)) ∧
    (Event.video ∈ tr → Event.audio ∈ tr ∧
      ∃ u, st.audioUrl = some u ∧ u ≠ "" ∧ vout = some (vf u)) := by
  simp only [mainRun] at h
  cases hloop : reviewLoop sf rvf fuel (initState rf topic) with
  | none => rw [hloop] at h; cases h
  | some p =>
    obtain ⟨st2, loopEvs⟩ := p
    rw [hloop] at h
    injection h with h
    rw [Prod.mk.injEq, Prod.mk.injEq] at h
    obtain ⟨h1, h2, h3⟩ := h
    subst h1
    subst h2
    subst h3
    obtain ⟨happ, hloopevs, hau⟩ := reviewLoop_spec sf rvf fuel _ st2 loopEvs hloop
    have hau2 : st2.audioUrl = none := hau
    have hnoaudio : Event.audio ∉ loopEvs := by
      intro hm; rcases hloopevs _ hm with hne | hne <;> cases hne
    have hnovideo : Event.video ∉ loopEvs := by
      intro hm; rcases hloopevs _ hm with hne | hne <;> cases hne
    cases hs : st2.script with
    | none =>
      have hA : audioStep af st2 = (st2, []) := by simp [audioStep, hs]
      rw [hA]
      dsimp only
      have hV : videoStep vf st2 = (none, []) := by simp [videoStep, hau2]
      rw [hV]
      dsimp only
      refine ⟨⟨loopEvs, [], by simp, hloopevs, Or.inl rfl⟩, ?_, ?_⟩
      · intro hm
        simp only [List.append_nil] at hm
        rcases List.mem_cons.mp hm with hne | hm2
        · cases hne
        · exact absurd hm2 hnoaudio
      · intro hm
        simp only [List.append_nil] at hm
        rcases List.mem_cons.mp hm with hne | hm2
        · cases hne
        · exact absurd hm2 hnovideo
    | some s =>
      by_cases hse : s = ""
      · have hA : audioStep af st2 = (st2, []) := by simp [audioStep, hs, hse]
        rw [hA]
        dsimp only
        have hV : videoStep vf st2 = (none, []) := by simp [videoStep, hau2]
        rw [hV]
        dsimp only
        refine ⟨⟨loopEvs, [], by simp, hloopevs, Or.inl rfl⟩, ?_, ?_⟩
        · intro hm
          simp only [List.append_nil] at hm
          rcases List.mem_cons.mp hm with hne | hm2
          · cases hne
          · exact absurd hm2 hnoaudio
        · intro hm
          simp only [List.append_nil] at hm
          rcases List.mem_cons.mp hm with hne | hm2
          · cases hne
          · exact absurd hm2 hnovideo
      · have hA : audioStep af st2 =
            ({ st2 with audioUrl := some (af s) }, [Event.audio]) := by
          simp [audioStep, hs, hse]
        rw [hA]
        dsimp only
        have happ2 : (rvf (some s)).approved = true := by rwa [hs] at happ
        by_cases hafe : af s = ""
        · have hV : videoStep vf { st2 with audioUrl := some (af s) } = (none, []) := by
            simp [videoStep, hafe]
          rw [hV]
          dsimp only
          refine ⟨⟨loopEvs, [Event.audio], by simp, hloopevs, Or.inr (Or.inl rfl)⟩, ?_, ?_⟩
          · intro _
            exact ⟨s, hs, hse, happ2, rfl⟩
          · intro hm
            simp only [List.append_nil] at hm
            rcases List.mem_cons.mp hm with hne | hm2
            · cases hne
            · rcases List.mem_append.mp hm2 with hm3 | hm3
              · exact absurd hm3 hnovideo
              · rcases List.mem_cons.mp hm3 with hne | hm4
                · cases hne
                · cases hm4
        · have hV : videoStep vf { st2 with audioUrl := some (af s) } =
              (some (vf (af s)), [Event.video]) := by
            simp [videoStep, hafe]
          rw [hV]
          dsimp only
          refine ⟨⟨loopEvs, [Event.audio, Event.video], by simp, hloopevs,
            Or.inr (Or.inr rfl)⟩, ?_, ?_⟩
          · intro _
            exact ⟨s, hs, hse, happ2, rfl⟩
          · intro _
            refine ⟨?_, af s, rfl, hafe, rfl⟩
            exact List.mem_cons_of_mem _
              (List.mem_append.mpr (Or.inl (List.mem_append.mpr (Or.inr (by decide)))))

/-- C6 witness: a concrete run with a first-round approval produces the full
ordered trace and the video stage consumes the stored audio URL. -/
theorem pipeline_sequential_witness :
    Event.audio ∈ sampleTrace ∧
    ∃ u, sampleFinalState.audioUrl = some u ∧ u ≠ "" ∧
      (some ("https://video.example/v.mp4") : Option String) = some (sampleVideoFn u) :=
  (pipeline_sequential (fun _ => sampleResearch) sampleScriptFn sampleReviewFn
    sampleAudioFn sampleVideoFn 1 "t" sampleFinalState
    (some ("https://video.example/v.mp4")) sampleTrace rfl).2.2 (by decide)

end VideoContentAgent
